import Mathlib

/-!
Verification of the WinClean rules packer core (`src/packer/main.rs`):
the YAML metadata extractor, the package assembler, the bincode binary
codec, and the compression layer.

Modelling conventions:
* `serde_yaml::Value` is `Yaml`; mapping keys are modelled as strings since
  every lookup the program performs indexes a mapping by a string key, so
  entries with non-string keys are never observed.  Numbers are collapsed to
  `Int` (the program only ever calls `as_str` / `as_sequence` on them).
* `PathBuf` is `FsPath`, a normalized component list as produced by
  `Path::components`; `OsStr` is modelled as `String` (`to_str` always
  succeeds in the model).
* Rust strings at the codec level are their UTF-8 byte lists (`ByteStr`);
  the data-model structures are generic in the string representation so the
  extractor (over `String`) and the codec (over `ByteStr`) share one shape.
* bincode's legacy configuration (used by `bincode::serialize` /
  `bincode::deserialize`): little-endian fixed-width integers, `usize` as
  `u64`, `u64` length prefixes for strings and sequences, a one-byte `0`/`1`
  discriminator for `Option`, struct fields in declaration order, trailing
  bytes permitted on deserialize.  The UTF-8 validity re-check that bincode
  performs when decoding a `String` is modelled away (strings are raw byte
  lists here); this only makes the modelled decoder accept more byte
  sequences, never fewer.
* The external zstd library is not part of this repository; its
  stream-initialization probe, stream read and stream write are abstracted
  as an opaque `ZstdCodec` record, following the spec's contract for the
  compression layer.
-/

/-- A YAML value, modelling `serde_yaml::Value`.  Mapping keys are modelled
as strings (see the module comment). -/
inductive Yaml where
  | null
  | bool (b : Bool)
  | number (n : Int)
  | str (s : String)
  | seq (items : List Yaml)
  | map (entries : List (String × Yaml))

/-- `Value::get` with a string index: a lookup in a mapping, `None` on any
other value or when the key is absent. -/
def Yaml.get? (v : Yaml) (k : String) : Option Yaml :=
  match v with
  | .map entries => (entries.find? (fun e => e.1 == k)).map (fun e => e.2)
  | _ => none

/-- The `Index` operator `v["k"]` on `serde_yaml::Value`: like `get`, but
yielding `Value::Null` when the lookup fails. -/
def Yaml.index (v : Yaml) (k : String) : Yaml :=
  (v.get? k).getD .null

/-- `Value::as_str`. -/
def Yaml.asStr : Yaml → Option String
  | .str s => some s
  | _ => none

/-- `Value::as_sequence`. -/
def Yaml.asSequence : Yaml → Option (List Yaml)
  | .seq items => some items
  | _ => none

/-- One normalized component of a filesystem path (`std::path::Component`;
the Windows prefix component plays no role in the claims and is omitted). -/
inductive PathComp where
  | rootDir
  | curDir
  | parentDir
  | normal (s : String)
deriving DecidableEq

/-- A filesystem path as its normalized component list, as produced by
`Path::components`. -/
structure FsPath where
  comps : List PathComp

/-- `Path::file_name`: the final component when it is a normal component. -/
def FsPath.fileName (p : FsPath) : Option String :=
  match p.comps.getLast? with
  | some (.normal s) => some s
  | _ => none

/-- `Path::parent`: the path without its final component; `None` for an
empty path or a bare root. -/
def FsPath.parent (p : FsPath) : Option FsPath :=
  if p.comps = [] ∨ p.comps = [PathComp.rootDir] then none
  else some ⟨p.comps.dropLast⟩

/-- `RuleMetadata` from `main.rs`, generic in the string representation
(`String` at the extraction level, UTF-8 byte lists at the codec level). -/
structure RuleMetadata (σ : Type) where
  id : σ
  name : σ
  risk : σ
  systeminfo : List σ
  update : σ
  author : Option σ
  description : Option σ
  category : σ
  filename : σ

/-- `RegistryEntry` from `main.rs`. -/
structure RegistryEntry (σ : Type) where
  path : σ
  key : σ
  value : Option σ
  value_data : Option σ
  action : σ

/-- `SerializedRule` from `main.rs`. -/
structure SerializedRule (σ : Type) where
  metadata : RuleMetadata σ
  yaml_content : σ
  paths : List σ
  registry_entries : List (RegistryEntry σ)

/-- `RulesPackageHeader` from `main.rs` (`version : u32`,
`created_at : u64`, `rule_count : usize` are all modelled as `Nat`). -/
structure RulesPackageHeader (σ : Type) where
  version : Nat
  created_at : Nat
  rule_count : Nat
  compression : σ
  categories : List σ

/-- `RulesPackage` from `main.rs`. -/
structure RulesPackage (σ : Type) where
  header : RulesPackageHeader σ
  rules : List (SerializedRule σ)

/-- Error carrier for the extractor `Result`s (the Rust signatures return
`anyhow::Result`; the bodies below never construct an error). -/
inductive ExtractErr where
  | extractionError

/-- The `RuleMetadata` record built by `extract_metadata` (the payload of
its `Ok`). -/
def extract_metadata_core (path : FsPath) (rule : Yaml) : RuleMetadata String :=
  { id := (rule.index "id").asStr.getD ""
    name := (rule.index "name").asStr.getD ""
    risk := (rule.index "risk").asStr.getD "low"
    systeminfo := ((rule.index "systeminfo").asSequence.map
      (fun s => s.filterMap Yaml.asStr)).getD []
    update := (rule.index "update").asStr.getD ""
    author := (rule.index "author").asStr
    description := (rule.index "description").asStr
    category := (path.parent.bind FsPath.fileName).getD "other"
    filename := path.fileName.getD "unknown.yaml" }

/-- `extract_metadata` from `main.rs`: wraps the record in `Ok`. -/
def extract_metadata (path : FsPath) (rule : Yaml) :
    Except ExtractErr (RuleMetadata String) :=
  .ok (extract_metadata_core path rule)

/-- The `RegistryEntry` built for one element of the `match.registry`
sequence in `extract_matches`. -/
def mkRegistryEntry (r : Yaml) : RegistryEntry String :=
  { path := (r.index "path").asStr.getD ""
    key := (r.index "key").asStr.getD "*"
    value := (r.index "value").asStr
    value_data := (r.index "value_data").asStr
    action := (r.index "action").asStr.getD "delete_key" }

/-- The `(paths, registry)` pair built by `extract_matches` (the payload of
its `Ok`). -/
def extract_matches_core (rule : Yaml) :
    List String × List (RegistryEntry String) :=
  match rule.get? "match" with
  | none => ([], [])
  | some m =>
    let paths : List String :=
      match m.get? "path" with
      | some ps =>
        match ps.asSequence with
        | some arr => arr.filterMap Yaml.asStr
        | none => []
      | none => []
    let registry : List (RegistryEntry String) :=
      match m.get? "registry" with
      | some rs =>
        match rs.asSequence with
        | some arr => arr.map mkRegistryEntry
        | none => []
      | none => []
    (paths, registry)

/-- `extract_matches` from `main.rs`: wraps the pair in `Ok`. -/
def extract_matches (rule : Yaml) :
    Except ExtractErr (List String × List (RegistryEntry String)) :=
  .ok (extract_matches_core rule)

/-- The `SerializedRule` built by one iteration of the `pack_rules`
collection loop, from one discovered file given as
(path, raw text, parsed document). -/
def mkSerializedRule (inp : FsPath × String × Yaml) : SerializedRule String :=
  { metadata := extract_metadata_core inp.1 inp.2.2
    yaml_content := inp.2.1
    paths := (extract_matches_core inp.2.2).1
    registry_entries := (extract_matches_core inp.2.2).2 }

/-- One iteration of the `pack_rules` collection loop: extract, push the
serialized rule, and record the category the first time it is seen. -/
def packStep (acc : List (SerializedRule String) × List String)
    (inp : FsPath × String × Yaml) :
    List (SerializedRule String) × List String :=
  let metadata := extract_metadata_core inp.1 inp.2.2
  let pr := extract_matches_core inp.2.2
  let serialized : SerializedRule String :=
    { metadata := metadata
      yaml_content := inp.2.1
      paths := pr.1
      registry_entries := pr.2 }
  (acc.1 ++ [serialized],
    if metadata.category ∈ acc.2 then acc.2 else acc.2 ++ [metadata.category])

/-- The rules and categories accumulated by the `pack_rules` loop over the
discovered files, in discovery order. -/
def packCollect (inputs : List (FsPath × String × Yaml)) :
    List (SerializedRule String) × List String :=
  inputs.foldl packStep ([], [])

/-- The package assembled by `pack_rules`: header plus collected rules
(`now` is the wall-clock seconds value used for `created_at`). -/
def pack_assemble (inputs : List (FsPath × String × Yaml))
    (compress : String) (now : Nat) : RulesPackage String :=
  let collected := packCollect inputs
  { header :=
      { version := 1
        created_at := now
        rule_count := collected.1.length
        compression := compress
        categories := collected.2 }
    rules := collected.1 }

/-- First-seen deduplication of a list of category names: the spec-level
description of the assembler's category set (set semantics with insertion
order, no sorting). -/
def firstSeen : List String → List String
  | [] => []
  | x :: xs => x :: firstSeen (xs.filter (fun y => y != x))
termination_by l => l.length
decreasing_by
  simp only [List.length_cons]
  exact Nat.lt_succ_of_le (List.length_filter_le _ _)

/-- The category accumulation of the pack loop, isolated as a fold over the
category names in rule order. -/
def buildCats (acc : List String) (cats : List String) : List String :=
  cats.foldl (fun a c => if c ∈ a then a else a ++ [c]) acc

/-- Byte strings: the codec-level representation of the content of a Rust
`String` (its UTF-8 bytes). -/
abbrev ByteStr := List Nat

/-- Modelled from the spec: the external zstd streaming library (not part
of this repository).  `initOk` is the stream-decoder initialization probe
(`zstd::stream::Decoder::new` succeeding), `readAll` is `read_to_end`
through the decoder (`none` models a read failure), and `compressBytes` is
the encoder pipeline (`Encoder::new` / `write_all` / `finish`), a pure byte
transformation per the spec's compression-layer contract. -/
structure ZstdCodec where
  initOk : List Nat → Bool
  readAll : List Nat → Option (List Nat)
  compressBytes : List Nat → List Nat

/-- Errors surfaced by `pack_rules` / `unpack_rules` / `show_info` after
assembly: the ConfigError for an unsupported compression algorithm (carrying
the offending name, as the anyhow bail message does) and an I/O failure. -/
inductive PackError where
  | configError (algorithm : String)
  | ioError

/-- The compression step of `pack_rules` (lines 192-200): zstd for
`"zstd"`, identity for `"none"`, and a ConfigError naming the algorithm
otherwise.  The `Ok` payload is exactly the byte sequence subsequently
passed to `fs::write`; an error aborts `pack_rules` before any write. -/
def compressStep (z : ZstdCodec) (compress : String) (serialized : List Nat) :
    Except PackError (List Nat) :=
  if compress = "zstd" then .ok (z.compressBytes serialized)
  else if compress = "none" then .ok serialized
  else .error (.configError compress)

/-- The decompression step shared verbatim by `unpack_rules` (lines
220-227) and `show_info` (lines 259-266): probe zstd stream-decoder
initialization on the raw bytes; on success read the stream through
(propagating read failures via the try operator); on failure fall back to
the raw bytes unchanged.  The package header is not an input: the declared
`compression` field is never consulted. -/
def decompressStep (z : ZstdCodec) (compressed : List Nat) :
    Except PackError (List Nat) :=
  if z.initOk compressed then
    match z.readAll compressed with
    | some d => .ok d
    | none => .error .ioError
  else .ok compressed

/-- Little-endian fixed-width unsigned encoding on `w` bytes (bincode's
FixintEncoding; `w = 4` for `u32`, `w = 8` for `u64`/`usize`). -/
def encU : Nat → Nat → List Nat
  | 0, _ => []
  | w + 1, n => n % 256 :: encU w (n / 256)

/-- A decoder: consumes a prefix of the byte sequence and returns the value
together with the unconsumed tail; `none` models a bincode error. -/
abbrev Decoder (α : Type) : Type := List Nat → Option (α × List Nat)

/-- Decoder returning a value without consuming input. -/
def dpure {α : Type} (a : α) : Decoder α := fun bs => some (a, bs)

/-- Sequential composition of decoders, threading the tail. -/
def dbind {α β : Type} (p : Decoder α) (f : α → Decoder β) : Decoder β :=
  fun bs =>
    match p bs with
    | none => none
    | some (a, r) => f a r

/-- Read a little-endian fixed-width unsigned integer of `w` bytes. -/
def readU : Nat → Decoder Nat
  | 0 => dpure 0
  | w + 1 => fun bs =>
    match bs with
    | [] => none
    | b :: r =>
      match readU w r with
      | none => none
      | some (n, rest) => some (b + 256 * n, rest)

/-- Read exactly `n` raw bytes; fails when fewer remain. -/
def readBytesN (n : Nat) : Decoder (List Nat) := fun bs =>
  if n ≤ bs.length then some (bs.take n, bs.drop n) else none

/-- bincode encoding of a string: `u64` byte length, then the bytes. -/
def encStr (s : ByteStr) : List Nat := encU 8 s.length ++ s

/-- bincode decoding of a string. -/
def readStr : Decoder ByteStr := dbind (readU 8) readBytesN

/-- bincode encoding of an `Option`: one discriminator byte (`0` for
`None`, `1` for `Some`), then the payload. -/
def encOpt {α : Type} (f : α → List Nat) : Option α → List Nat
  | none => [0]
  | some x => 1 :: f x

/-- bincode decoding of an `Option`: any discriminator other than `0`/`1`
is an error. -/
def readOpt {α : Type} (p : Decoder α) : Decoder (Option α) := fun bs =>
  match bs with
  | [] => none
  | b :: r =>
    if b = 0 then some (none, r)
    else if b = 1 then
      match p r with
      | none => none
      | some (a, r2) => some (some a, r2)
    else none

/-- The element encodings of a list, concatenated in order. -/
def encListBody {α : Type} (f : α → List Nat) : List α → List Nat
  | [] => []
  | x :: xs => f x ++ encListBody f xs

/-- bincode encoding of a `Vec`: `u64` element count, then the elements. -/
def encSeq {α : Type} (f : α → List Nat) (l : List α) : List Nat :=
  encU 8 l.length ++ encListBody f l

/-- Decode exactly `n` consecutive elements. -/
def readCount {α : Type} (p : Decoder α) : Nat → Decoder (List α)
  | 0 => dpure []
  | n + 1 => dbind p fun a => dbind (readCount p n) fun l => dpure (a :: l)

/-- bincode decoding of a `Vec`: read the `u64` count, then that many
elements. -/
def readSeq {α : Type} (p : Decoder α) : Decoder (List α) :=
  dbind (readU 8) (readCount p)

/-- bincode encoding of `RuleMetadata`, fields in declaration order. -/
def encMetadata (m : RuleMetadata ByteStr) : List Nat :=
  encStr m.id ++ (encStr m.name ++ (encStr m.risk ++
    (encSeq encStr m.systeminfo ++ (encStr m.update ++
    (encOpt encStr m.author ++ (encOpt encStr m.description ++
    (encStr m.category ++ encStr m.filename)))))))

/-- bincode decoding of `RuleMetadata`. -/
def readMetadata : Decoder (RuleMetadata ByteStr) :=
  dbind readStr fun i =>
  dbind readStr fun n =>
  dbind readStr fun r =>
  dbind (readSeq readStr) fun si =>
  dbind readStr fun u =>
  dbind (readOpt readStr) fun au =>
  dbind (readOpt readStr) fun de =>
  dbind readStr fun ca =>
  dbind readStr fun fi =>
  dpure { id := i, name := n, risk := r, systeminfo := si, update := u,
          author := au, description := de, category := ca, filename := fi }

/-- bincode encoding of `RegistryEntry`, fields in declaration order. -/
def encEntry (e : RegistryEntry ByteStr) : List Nat :=
  encStr e.path ++ (encStr e.key ++ (encOpt encStr e.value ++
    (encOpt encStr e.value_data ++ encStr e.action)))

/-- bincode decoding of `RegistryEntry`. -/
def readEntry : Decoder (RegistryEntry ByteStr) :=
  dbind readStr fun pa =>
  dbind readStr fun ke =>
  dbind (readOpt readStr) fun va =>
  dbind (readOpt readStr) fun vd =>
  dbind readStr fun ac =>
  dpure { path := pa, key := ke, value := va, value_data := vd, action := ac }

/-- bincode encoding of `SerializedRule`, fields in declaration order. -/
def encRule (r : SerializedRule ByteStr) : List Nat :=
  encMetadata r.metadata ++ (encStr r.yaml_content ++
    (encSeq encStr r.paths ++ encSeq encEntry r.registry_entries))

/-- bincode decoding of `SerializedRule`. -/
def readRule : Decoder (SerializedRule ByteStr) :=
  dbind readMetadata fun me =>
  dbind readStr fun yc =>
  dbind (readSeq readStr) fun pa =>
  dbind (readSeq readEntry) fun re =>
  dpure { metadata := me, yaml_content := yc, paths := pa,
          registry_entries := re }

/-- bincode encoding of `RulesPackageHeader`, fields in declaration order
(`version` as `u32`, `created_at` as `u64`, `rule_count` as `usize`, i.e.
`u64`). -/
def encHeader (h : RulesPackageHeader ByteStr) : List Nat :=
  encU 4 h.version ++ (encU 8 h.created_at ++ (encU 8 h.rule_count ++
    (encStr h.compression ++ encSeq encStr h.categories)))

/-- bincode decoding of `RulesPackageHeader`. -/
def readHeader : Decoder (RulesPackageHeader ByteStr) :=
  dbind (readU 4) fun ve =>
  dbind (readU 8) fun cr =>
  dbind (readU 8) fun rc =>
  dbind readStr fun co =>
  dbind (readSeq readStr) fun ca =>
  dpure { version := ve, created_at := cr, rule_count := rc,
          compression := co, categories := ca }

/-- `bincode::serialize` of a `RulesPackage`: header, then rules. -/
def encPackage (p : RulesPackage ByteStr) : List Nat :=
  encHeader p.header ++ encSeq encRule p.rules

/-- Front parse of a `RulesPackage`, returning the unconsumed tail. -/
def readPackage : Decoder (RulesPackage ByteStr) :=
  dbind readHeader fun he =>
  dbind (readSeq readRule) fun ru =>
  dpure { header := he, rules := ru }

/-- `bincode::deserialize` of a `RulesPackage`: parse from the front
(trailing bytes are permitted by the bincode legacy configuration);
`none` models `Err`, surfaced by the program as its CodecError. -/
def decodePackage (bs : List Nat) : Option (RulesPackage ByteStr) :=
  match readPackage bs with
  | some (p, _) => some p
  | none => none

/-- Structural validity of a codec-level string: its length fits the `u64`
length prefix and its elements are bytes. -/
abbrev ValidStr (s : ByteStr) : Prop := s.length < 2 ^ 64 ∧ ∀ b ∈ s, b < 256

/-- Structural validity of an optional string. -/
abbrev ValidOptStr : Option ByteStr → Prop
  | none => True
  | some s => ValidStr s

instance instDecidableValidOptStr (o : Option ByteStr) :
    Decidable (ValidOptStr o) :=
  match o with
  | none => Decidable.isTrue trivial
  | some s => inferInstanceAs (Decidable (ValidStr s))

/-- Structural validity of a `RuleMetadata`. -/
abbrev ValidMetadata (m : RuleMetadata ByteStr) : Prop :=
  ValidStr m.id ∧ ValidStr m.name ∧ ValidStr m.risk ∧
  m.systeminfo.length < 2 ^ 64 ∧ (∀ s ∈ m.systeminfo, ValidStr s) ∧
  ValidStr m.update ∧ ValidOptStr m.author ∧ ValidOptStr m.description ∧
  ValidStr m.category ∧ ValidStr m.filename

/-- Structural validity of a `RegistryEntry`. -/
abbrev ValidEntry (e : RegistryEntry ByteStr) : Prop :=
  ValidStr e.path ∧ ValidStr e.key ∧ ValidOptStr e.value ∧
  ValidOptStr e.value_data ∧ ValidStr e.action

/-- Structural validity of a `SerializedRule`. -/
abbrev ValidRule (r : SerializedRule ByteStr) : Prop :=
  ValidMetadata r.metadata ∧ ValidStr r.yaml_content ∧
  r.paths.length < 2 ^ 64 ∧ (∀ s ∈ r.paths, ValidStr s) ∧
  r.registry_entries.length < 2 ^ 64 ∧
  ∀ e ∈ r.registry_entries, ValidEntry e

/-- Structural validity of a `RulesPackageHeader`: every field fits its
fixed-width wire representation. -/
abbrev ValidHeader (h : RulesPackageHeader ByteStr) : Prop :=
  h.version < 2 ^ 32 ∧ h.created_at < 2 ^ 64 ∧ h.rule_count < 2 ^ 64 ∧
  ValidStr h.compression ∧ h.categories.length < 2 ^ 64 ∧
  ∀ s ∈ h.categories, ValidStr s

/-- Structural validity of a `RulesPackage`. -/
abbrev ValidPackage (p : RulesPackage ByteStr) : Prop :=
  ValidHeader p.header ∧ p.rules.length < 2 ^ 64 ∧
  ∀ r ∈ p.rules, ValidRule r

/-- UTF-8 bytes of a string, for carrying a `RulesPackage String` into the
codec-level byte representation. -/
def utf8 (s : String) : List Nat := s.toUTF8.toList.map (fun b => b.toNat)

/-- Map the string representation of a `RuleMetadata`. -/
def RuleMetadata.mapStr {σ τ : Type} (f : σ → τ) (m : RuleMetadata σ) :
    RuleMetadata τ :=
  { id := f m.id, name := f m.name, risk := f m.risk
    systeminfo := m.systeminfo.map f, update := f m.update
    author := m.author.map f, description := m.description.map f
    category := f m.category, filename := f m.filename }

/-- Map the string representation of a `RegistryEntry`. -/
def RegistryEntry.mapStr {σ τ : Type} (f : σ → τ) (e : RegistryEntry σ) :
    RegistryEntry τ :=
  { path := f e.path, key := f e.key, value := e.value.map f
    value_data := e.value_data.map f, action := f e.action }

/-- Map the string representation of a `SerializedRule`. -/
def SerializedRule.mapStr {σ τ : Type} (f : σ → τ) (r : SerializedRule σ) :
    SerializedRule τ :=
  { metadata := r.metadata.mapStr f, yaml_content := f r.yaml_content
    paths := r.paths.map f
    registry_entries := r.registry_entries.map (RegistryEntry.mapStr f) }

/-- Map the string representation of a `RulesPackageHeader`. -/
def RulesPackageHeader.mapStr {σ τ : Type} (f : σ → τ)
    (h : RulesPackageHeader σ) : RulesPackageHeader τ :=
  { version := h.version, created_at := h.created_at
    rule_count := h.rule_count, compression := f h.compression
    categories := h.categories.map f }

/-- Map the string representation of a `RulesPackage`. -/
def RulesPackage.mapStr {σ τ : Type} (f : σ → τ) (p : RulesPackage σ) :
    RulesPackage τ :=
  { header := p.header.mapStr f
    rules := p.rules.map (SerializedRule.mapStr f) }

/-- `pack_rules` from assembly to the byte sequence handed to `fs::write`:
bincode-serialize the assembled package (strings become their UTF-8 bytes)
and compress.  An error means `pack_rules` bails before `fs::write`. -/
def packOutput (z : ZstdCodec) (inputs : List (FsPath × String × Yaml))
    (compress : String) (now : Nat) : Except PackError (List Nat) :=
  compressStep z compress
    (encPackage ((pack_assemble inputs compress now).mapStr utf8))

/-- A small structurally valid package (one rule, every optional-field and
sequence shape exercised), for instantiating the codec theorems at a
concrete input.  Strings are given directly as byte lists. -/
def pkg1 : RulesPackage ByteStr :=
  { header :=
      { version := 1
        created_at := 1700000000
        rule_count := 1
        compression := [122, 115, 116, 100]
        categories := [[112, 114, 105, 118]] }
    rules :=
      [{ metadata :=
           { id := [114, 49]
             name := [110]
             risk := [108, 111, 119]
             systeminfo := [[119, 49, 48], []]
             update := []
             author := some [97]
             description := none
             category := [112, 114, 105, 118]
             filename := [114, 49, 46, 121] }
         yaml_content := [105, 100, 58, 32, 114, 49]
         paths := [[67, 58], []]
         registry_entries :=
           [{ path := [72, 75, 67, 85]
              key := [42]
              value := none
              value_data := some []
              action := [100, 101, 108] }] }] }

/-- A zstd model whose initialization probe always fails, for instantiating
the compression theorems at a concrete input. -/
def zNoInit : ZstdCodec :=
  { initOk := fun _ => false
    readAll := fun _ => none
    compressBytes := fun bs => bs }

/-- C4: tolerant defaulting in extraction.  `extract_metadata` never fails;
a missing or non-string `risk` yields `"low"`; for a registry element a
missing or non-string `key` yields `"*"` and a missing or non-string
`action` yields `"delete_key"`; and `extract_matches` (which builds one
`RegistryEntry` per element via `mkRegistryEntry`) never fails either. -/
theorem extract_defaults (path : FsPath) (rule elem : Yaml) :
    extract_metadata path rule = .ok (extract_metadata_core path rule) ∧
    extract_matches rule = .ok (extract_matches_core rule) ∧
    ((rule.index "risk").asStr = none →
      (extract_metadata_core path rule).risk = "low") ∧
    ((elem.index "key").asStr = none → (mkRegistryEntry elem).key = "*") ∧
    ((elem.index "action").asStr = none →
      (mkRegistryEntry elem).action = "delete_key") := by
  refine ⟨rfl, rfl, ?_, ?_, ?_⟩ <;> intro h <;>
    simp [extract_metadata_core, mkRegistryEntry, h]

/-- C4 witness: the defaults at a concrete document missing all three
fields. -/
theorem extract_defaults_witness :
    (extract_metadata_core ⟨[]⟩ (Yaml.map [])).risk = "low" ∧
    (mkRegistryEntry Yaml.null).key = "*" ∧
    (mkRegistryEntry Yaml.null).action = "delete_key" := by
  have h := extract_defaults ⟨[]⟩ (Yaml.map []) Yaml.null
  exact ⟨h.2.2.1 rfl, h.2.2.2.1 rfl, h.2.2.2.2 rfl⟩

/-- The last component of a path ending in a normal component is its file
name. -/
theorem fileName_concat (l : List PathComp) (s : String) :
    FsPath.fileName ⟨l ++ [PathComp.normal s]⟩ = some s := by
  simp [FsPath.fileName, List.getLast?_concat]

/-- Variant of `fileName_concat` for a two-component suffix. -/
theorem fileName_concat2 (l : List PathComp) (a : PathComp) (s : String) :
    FsPath.fileName ⟨l ++ [a, PathComp.normal s]⟩ = some s := by
  have h : l ++ [a, PathComp.normal s] = (l ++ [a]) ++ [PathComp.normal s] := by
    simp
  rw [h]
  exact fileName_concat (l ++ [a]) s

/-- A path with at least two components has a parent: the path without its
last component. -/
theorem parent_concat2 (l : List PathComp) (a b : PathComp) :
    FsPath.parent ⟨l ++ [a, b]⟩ = some ⟨l ++ [a]⟩ := by
  have h1 : l ++ [a, b] ≠ [] := by simp
  have h2 : l ++ [a, b] ≠ [PathComp.rootDir] := by
    intro h
    have hlen := congrArg List.length h
    simp [List.length_append] at hlen
  have h3 : (l ++ [a, b]).dropLast = l ++ [a] := by
    have : l ++ [a, b] = (l ++ [a]) ++ [b] := by simp
    rw [this, List.dropLast_concat]
  simp [FsPath.parent, h1, h2, h3]

/-- C5: for a document at `.../c/f`, the extracted `category` is the
immediate parent directory name `c` and the extracted `filename` is the
document's own file name `f`, whatever the document content is; and
re-running the extraction yields the identical metadata. -/
theorem extract_category_filename (pre : List PathComp) (c f : String)
    (rule : Yaml) :
    (extract_metadata_core
        ⟨pre ++ [PathComp.normal c, PathComp.normal f]⟩ rule).category = c ∧
    (extract_metadata_core
        ⟨pre ++ [PathComp.normal c, PathComp.normal f]⟩ rule).filename = f ∧
    extract_metadata ⟨pre ++ [PathComp.normal c, PathComp.normal f]⟩ rule =
      extract_metadata ⟨pre ++ [PathComp.normal c, PathComp.normal f]⟩ rule := by
  refine ⟨?_, ?_, rfl⟩
  · simp [extract_metadata_core, parent_concat2, fileName_concat]
  · simp [extract_metadata_core, fileName_concat2]

/-- C9: path-component fallbacks.  When the parent directory name does not
resolve the category is the literal `"other"`, and when the file name does
not resolve the filename is the literal `"unknown.yaml"`; extraction still
succeeds. -/
theorem extract_path_fallbacks (path : FsPath) (rule : Yaml) :
    (path.parent.bind FsPath.fileName = none →
      (extract_metadata_core path rule).category = "other") ∧
    (path.fileName = none →
      (extract_metadata_core path rule).filename = "unknown.yaml") ∧
    extract_metadata path rule = .ok (extract_metadata_core path rule) := by
  refine ⟨?_, ?_, rfl⟩ <;> intro h <;> simp [extract_metadata_core, h]

/-- C9 witness: the empty path resolves neither a parent directory name nor
a file name. -/
theorem extract_path_fallbacks_witness :
    (extract_metadata_core ⟨[]⟩ Yaml.null).category = "other" ∧
    (extract_metadata_core ⟨[]⟩ Yaml.null).filename = "unknown.yaml" := by
  have h := extract_path_fallbacks ⟨[]⟩ Yaml.null
  exact ⟨h.1 rfl, h.2.1 rfl⟩

/-- `as_str` returns a string exactly on string values. -/
theorem asStr_eq_some (y : Yaml) (s : String) :
    y.asStr = some s ↔ y = Yaml.str s := by
  cases y <;> simp [Yaml.asStr]

/-- The string elements kept by the systeminfo filter form a sublist of the
original sequence: original relative order, no reordering and no
duplication. -/
theorem filterMap_asStr_sublist (l : List Yaml) :
    ((l.filterMap Yaml.asStr).map Yaml.str).Sublist l := by
  induction l with
  | nil => simp
  | cons y ys ih =>
    cases y with
    | str s =>
      simpa [List.filterMap_cons, Yaml.asStr] using ih.cons₂ (Yaml.str s)
    | null => simpa [List.filterMap_cons, Yaml.asStr] using ih.cons _
    | bool b => simpa [List.filterMap_cons, Yaml.asStr] using ih.cons _
    | number n => simpa [List.filterMap_cons, Yaml.asStr] using ih.cons _
    | seq items => simpa [List.filterMap_cons, Yaml.asStr] using ih.cons _
    | map entries => simpa [List.filterMap_cons, Yaml.asStr] using ih.cons _

/-- C6: systeminfo tolerance.  When the `systeminfo` field is a sequence
`l`, the extracted list is exactly the string elements of `l` (non-string
elements silently dropped), in their original relative order; when the
field is absent or not a sequence, the extracted list is empty. -/
theorem extract_systeminfo (path : FsPath) (rule : Yaml) (l : List Yaml) :
    (rule.index "systeminfo" = Yaml.seq l →
      (extract_metadata_core path rule).systeminfo = l.filterMap Yaml.asStr ∧
      (((extract_metadata_core path rule).systeminfo.map Yaml.str).Sublist l ∧
        ∀ s, s ∈ (extract_metadata_core path rule).systeminfo ↔
          Yaml.str s ∈ l)) ∧
    ((rule.index "systeminfo").asSequence = none →
      (extract_metadata_core path rule).systeminfo = []) := by
  constructor
  · intro h
    have heq : (extract_metadata_core path rule).systeminfo =
        l.filterMap Yaml.asStr := by
      simp [extract_metadata_core, h, Yaml.asSequence]
    refine ⟨heq, ?_, ?_⟩
    · rw [heq]; exact filterMap_asStr_sublist l
    · intro s
      rw [heq]
      simp [List.mem_filterMap, asStr_eq_some]
  · intro h
    simp [extract_metadata_core, h]

/-- C6 witness: a mixed sequence keeps only its string elements, and a
document without a systeminfo sequence yields the empty list. -/
theorem extract_systeminfo_witness :
    (extract_metadata_core ⟨[]⟩
        (Yaml.map [("systeminfo",
          Yaml.seq [Yaml.str "w10", Yaml.number 3, Yaml.str "w11"])])).systeminfo
      = ["w10", "w11"] ∧
    (extract_metadata_core ⟨[]⟩ (Yaml.map [])).systeminfo = [] := by
  constructor
  · have h := extract_systeminfo ⟨[]⟩
      (Yaml.map [("systeminfo",
        Yaml.seq [Yaml.str "w10", Yaml.number 3, Yaml.str "w11"])])
      [Yaml.str "w10", Yaml.number 3, Yaml.str "w11"]
    rw [(h.1 rfl).1]
    rfl
  · exact (extract_systeminfo ⟨[]⟩ (Yaml.map []) []).2 rfl

/-- C10: registry-element totality.  `extract_matches` always returns `Ok`;
when `match.registry` is a sequence `l`, the extracted registry entries are
exactly one `RegistryEntry` per element of `l` (mappings or not), in order,
none dropped; and an element whose `path` is missing or not a string yields
the empty string as its `path`. -/
theorem extract_registry_total (rule m rs elem : Yaml) (l : List Yaml) :
    extract_matches rule = .ok (extract_matches_core rule) ∧
    (rule.get? "match" = some m → m.get? "registry" = some rs →
      rs.asSequence = some l →
      (extract_matches_core rule).2 = l.map mkRegistryEntry ∧
      (extract_matches_core rule).2.length = l.length) ∧
    ((elem.index "path").asStr = none → (mkRegistryEntry elem).path = "") := by
  refine ⟨rfl, ?_, ?_⟩
  · intro h1 h2 h3
    have heq : (extract_matches_core rule).2 = l.map mkRegistryEntry := by
      simp [extract_matches_core, h1, h2, h3]
    exact ⟨heq, by rw [heq]; simp⟩
  · intro h
    simp [mkRegistryEntry, h]

/-- C10 witness: a registry sequence whose single element is not a mapping
still produces exactly one entry, with the undocumented empty-string path
default. -/
theorem extract_registry_total_witness :
    (extract_matches_core
        (Yaml.map [("match",
          Yaml.map [("registry", Yaml.seq [Yaml.null])])])).2
      = [mkRegistryEntry Yaml.null] ∧
    (mkRegistryEntry Yaml.null).path = "" := by
  have h := extract_registry_total
    (Yaml.map [("match", Yaml.map [("registry", Yaml.seq [Yaml.null])])])
    (Yaml.map [("registry", Yaml.seq [Yaml.null])])
    (Yaml.seq [Yaml.null]) Yaml.null [Yaml.null]
  exact ⟨(h.2.1 rfl rfl rfl).1, h.2.2 rfl⟩

/-- Membership in the first-seen deduplication is membership in the input. -/
theorem mem_firstSeen (l : List String) (a : String) :
    a ∈ firstSeen l ↔ a ∈ l := by
  induction l using firstSeen.induct with
  | case1 => simp [firstSeen]
  | case2 x xs ih =>
    by_cases hax : a = x
    · subst hax; simp [firstSeen]
    · simp [firstSeen, ih, List.mem_filter, hax, bne_iff_ne]

/-- The first-seen deduplication has no duplicates. -/
theorem nodup_firstSeen (l : List String) : (firstSeen l).Nodup := by
  induction l using firstSeen.induct with
  | case1 => simp [firstSeen]
  | case2 x xs ih =>
    rw [firstSeen]
    refine List.Nodup.cons ?_ ih
    intro hx
    rw [mem_firstSeen] at hx
    simp [List.mem_filter] at hx

/-- The pack loop's category fold equals the accumulator followed by the
first-seen deduplication of the not-yet-seen category names. -/
theorem buildCats_eq_firstSeen (cats : List String) (acc : List String) :
    buildCats acc cats =
      acc ++ firstSeen (cats.filter (fun c => decide (c ∉ acc))) := by
  induction cats generalizing acc with
  | nil => simp [buildCats, firstSeen]
  | cons c cs ih =>
    by_cases hc : c ∈ acc
    · have hstep : buildCats acc (c :: cs) = buildCats acc cs := by
        simp [buildCats, List.foldl_cons, hc]
      rw [hstep, ih]
      have hfil : (c :: cs).filter (fun x => decide (x ∉ acc)) =
          cs.filter (fun x => decide (x ∉ acc)) := by
        simp [List.filter_cons, hc]
      rw [hfil]
    · have hstep : buildCats acc (c :: cs) = buildCats (acc ++ [c]) cs := by
        simp [buildCats, List.foldl_cons, hc]
      rw [hstep, ih]
      have hfil : (c :: cs).filter (fun x => decide (x ∉ acc)) =
          c :: cs.filter (fun x => decide (x ∉ acc)) := by
        simp [List.filter_cons, hc]
      rw [hfil, firstSeen]
      have hfil2 : cs.filter (fun x => decide (x ∉ acc ++ [c])) =
          (cs.filter (fun x => decide (x ∉ acc))).filter (fun y => y != c) := by
        rw [List.filter_filter]
        refine List.filter_congr ?_
        intro y hy
        by_cases h1 : y = c
        · simp [h1]
        · by_cases h2 : y ∈ acc <;> simp [h1, h2]
      rw [hfil2]
      simp

/-- One step of the pack loop appends the serialized rule and folds the
category. -/
theorem packStep_eq (acc : List (SerializedRule String) × List String)
    (inp : FsPath × String × Yaml) :
    packStep acc inp =
      (acc.1 ++ [mkSerializedRule inp],
        if (extract_metadata_core inp.1 inp.2.2).category ∈ acc.2 then acc.2
        else acc.2 ++ [(extract_metadata_core inp.1 inp.2.2).category]) := by
  rfl

/-- The pack loop from any accumulator: rules are appended in discovery
order, and the categories fold over the rule category names. -/
theorem packCollect_go (inputs : List (FsPath × String × Yaml))
    (rs : List (SerializedRule String)) (cs : List String) :
    inputs.foldl packStep (rs, cs) =
      (rs ++ inputs.map mkSerializedRule,
        buildCats cs (inputs.map
          (fun inp => (extract_metadata_core inp.1 inp.2.2).category))) := by
  induction inputs generalizing rs cs with
  | nil => simp [buildCats]
  | cons i is ih =>
    rw [List.foldl_cons, packStep_eq, ih]
    simp only [Prod.mk.injEq]
    constructor
    · simp
    · simp [buildCats, List.foldl_cons]

/-- The pack loop over the discovered files. -/
theorem packCollect_eq (inputs : List (FsPath × String × Yaml)) :
    packCollect inputs =
      (inputs.map mkSerializedRule,
        firstSeen (inputs.map
          (fun inp => (extract_metadata_core inp.1 inp.2.2).category))) := by
  rw [packCollect, packCollect_go]
  simp only [Prod.mk.injEq]
  constructor
  · simp
  · rw [buildCats_eq_firstSeen]
    have : (inputs.map
        (fun inp => (extract_metadata_core inp.1 inp.2.2).category)).filter
          (fun c => decide (c ∉ ([] : List String))) =
        inputs.map (fun inp => (extract_metadata_core inp.1 inp.2.2).category) := by
      refine List.filter_eq_self.mpr ?_
      intro a _
      simp
    rw [this]
    simp

/-- C7: assembler header postcondition.  The assembled package's
`categories` are exactly the distinct category strings of the rules, each
once, in first-seen order (no sorting), and `rule_count` equals the length
of the rules sequence. -/
theorem pack_header_postcondition (inputs : List (FsPath × String × Yaml))
    (compress : String) (now : Nat) :
    (pack_assemble inputs compress now).header.rule_count =
      (pack_assemble inputs compress now).rules.length ∧
    (pack_assemble inputs compress now).header.categories =
      firstSeen ((pack_assemble inputs compress now).rules.map
        (fun r => r.metadata.category)) ∧
    (pack_assemble inputs compress now).header.categories.Nodup ∧
    ∀ c, c ∈ (pack_assemble inputs compress now).header.categories ↔
      c ∈ (pack_assemble inputs compress now).rules.map
        (fun r => r.metadata.category) := by
  have hcat : (inputs.map mkSerializedRule).map (fun r => r.metadata.category) =
      inputs.map (fun inp => (extract_metadata_core inp.1 inp.2.2).category) := by
    rw [List.map_map]
    rfl
  refine ⟨rfl, ?_, ?_, ?_⟩
  · show (packCollect inputs).2 =
      firstSeen (((packCollect inputs).1).map (fun r => r.metadata.category))
    rw [packCollect_eq]
    rw [hcat]
  · show ((packCollect inputs).2).Nodup
    rw [packCollect_eq]
    exact nodup_firstSeen _
  · intro c
    show c ∈ (packCollect inputs).2 ↔
      c ∈ ((packCollect inputs).1).map (fun r => r.metadata.category)
    rw [packCollect_eq]
    rw [hcat, mem_firstSeen]

/-- C2: self-detecting decompression.  The read path of `unpack_rules` and
`show_info` probes zstd stream initialization on the raw bytes and never
consults the package header's declared compression field (the header is not
even an input of `decompressStep`); whenever the probe fails — in
particular on uncompressed codec output — the bytes are returned
unchanged. -/
theorem decompress_fallback (z : ZstdCodec) (bs : List Nat)
    (h : z.initOk bs = false) :
    decompressStep z bs = .ok bs := by
  simp [decompressStep, h]

/-- C2 witness: concrete bytes through a zstd model whose initialization
probe fails. -/
theorem decompress_fallback_witness :
    decompressStep zNoInit [1, 0, 0, 0] = .ok [1, 0, 0, 0] :=
  decompress_fallback zNoInit [1, 0, 0, 0] rfl

/-- C8: unsupported compression algorithm.  For any algorithm name other
than `"zstd"` and `"none"`, `pack_rules` fails with a ConfigError carrying
that name, and no bytes are produced for `fs::write` (the error is raised
before the write). -/
theorem pack_unsupported_compression (z : ZstdCodec)
    (inputs : List (FsPath × String × Yaml)) (compress : String) (now : Nat)
    (h1 : compress ≠ "zstd") (h2 : compress ≠ "none") :
    packOutput z inputs compress now =
      .error (PackError.configError compress) := by
  simp [packOutput, compressStep, h1, h2]

/-- C8 witness: `pack --compress rot13` on an empty input set fails with a
ConfigError naming `"rot13"`. -/
theorem pack_unsupported_compression_witness :
    packOutput zNoInit [] "rot13" 0 =
      .error (PackError.configError "rot13") :=
  pack_unsupported_compression zNoInit [] "rot13" 0 (by decide) (by decide)

/-- Decoder `p` parses the encoding `e` to the value `a`, leaving any
trailing bytes as the unconsumed tail. -/
def ParsesTo {α : Type} (p : Decoder α) (e : List Nat) (a : α) : Prop :=
  ∀ r, p (e ++ r) = some (a, r)

/-- `dpure` consumes nothing. -/
theorem parsesTo_dpure {α : Type} (a : α) : ParsesTo (dpure a) [] a := by
  intro r
  rfl

/-- Sequencing decoders concatenates the byte regions they consume. -/
theorem parsesTo_dbind {α β : Type} {p : Decoder α} (f : α → Decoder β)
    {e1 e2 : List Nat} {a : α} {b : β}
    (h1 : ParsesTo p e1 a) (h2 : ParsesTo (f a) e2 b) :
    ParsesTo (dbind p f) (e1 ++ e2) b := by
  intro r
  show dbind p f (e1 ++ e2 ++ r) = some (b, r)
  rw [List.append_assoc]
  unfold dbind
  rw [h1 (e2 ++ r)]
  exact h2 r

/-- Variant of `parsesTo_dbind` for a final step that consumes no bytes. -/
theorem parsesTo_dbind_done {α β : Type} {p : Decoder α} (f : α → Decoder β)
    {e : List Nat} {a : α} {b : β}
    (h1 : ParsesTo p e a) (h2 : ParsesTo (f a) [] b) :
    ParsesTo (dbind p f) e b := by
  intro r
  unfold dbind
  rw [h1 r]
  exact h2 r

/-- Little-endian fixed-width round-trip, general form: the read-back value
is the written value reduced modulo the width. -/
theorem parsesTo_readU_mod (w n : Nat) :
    ParsesTo (readU w) (encU w n) (n % 256 ^ w) := by
  induction w generalizing n with
  | zero =>
    intro r
    simp [encU, readU, dpure, Nat.mod_one]
  | succ w ih =>
    intro r
    have hih := ih (n / 256) r
    have hmod : n % 256 + 256 * (n / 256 % 256 ^ w) = n % 256 ^ (w + 1) := by
      rw [pow_succ']
      exact Nat.mod_mul.symm
    simp only [encU, List.cons_append, readU, hih, hmod]

/-- Little-endian fixed-width round-trip for in-range values. -/
theorem parsesTo_readU {w n : Nat} (h : n < 256 ^ w) :
    ParsesTo (readU w) (encU w n) n := by
  have hmod := parsesTo_readU_mod w n
  rwa [Nat.mod_eq_of_lt h] at hmod

/-- The byte widths used by the codec. -/
theorem pow_256_8_eq : (256 : Nat) ^ 8 = 2 ^ 64 := by norm_num

/-- The byte width of a `u32`. -/
theorem pow_256_4_eq : (256 : Nat) ^ 4 = 2 ^ 32 := by norm_num

/-- `u64` round-trip below `2 ^ 64`. -/
theorem parsesTo_readU8 {n : Nat} (h : n < 2 ^ 64) :
    ParsesTo (readU 8) (encU 8 n) n :=
  parsesTo_readU (by rw [pow_256_8_eq]; exact h)

/-- `u32` round-trip below `2 ^ 32`. -/
theorem parsesTo_readU4 {n : Nat} (h : n < 2 ^ 32) :
    ParsesTo (readU 4) (encU 4 n) n :=
  parsesTo_readU (by rw [pow_256_4_eq]; exact h)

/-- Reading back exactly the bytes just written. -/
theorem parsesTo_readBytesN (s : List Nat) :
    ParsesTo (readBytesN s.length) s s := by
  intro r
  have hle : s.length ≤ (s ++ r).length := by simp
  simp [readBytesN, hle, List.take_left, List.drop_left]

/-- String round-trip: length prefix then content. -/
theorem parsesTo_readStr {s : ByteStr} (h : s.length < 2 ^ 64) :
    ParsesTo readStr (encStr s) s :=
  parsesTo_dbind readBytesN (parsesTo_readU8 h) (parsesTo_readBytesN s)

/-- Option round-trip: discriminator byte then payload. -/
theorem parsesTo_readOpt {α : Type} {p : Decoder α} {f : α → List Nat}
    {o : Option α} (h : ∀ x, o = some x → ParsesTo p (f x) x) :
    ParsesTo (readOpt p) (encOpt f o) o := by
  cases o with
  | none =>
    intro r
    simp [encOpt, readOpt]
  | some x =>
    intro r
    have hx := h x rfl r
    simp [encOpt, readOpt, hx]

/-- Fixed-count element round-trip. -/
theorem parsesTo_readCount {α : Type} {p : Decoder α} {f : α → List Nat}
    (l : List α) (h : ∀ x ∈ l, ParsesTo p (f x) x) :
    ParsesTo (readCount p l.length) (encListBody f l) l := by
  induction l with
  | nil =>
    intro r
    simp [encListBody, readCount, dpure]
  | cons x xs ih =>
    intro r
    have hx : p (f x ++ (encListBody f xs ++ r)) =
        some (x, encListBody f xs ++ r) :=
      h x (by simp) (encListBody f xs ++ r)
    have hxs : readCount p xs.length (encListBody f xs ++ r) = some (xs, r) :=
      ih (fun y hy => h y (by simp [hy])) r
    show readCount p (x :: xs).length ((f x ++ encListBody f xs) ++ r) =
      some (x :: xs, r)
    simp only [List.length_cons, readCount, dbind, dpure, List.append_assoc,
      hx, hxs]

/-- Sequence round-trip: count prefix then elements. -/
theorem parsesTo_readSeq {α : Type} {p : Decoder α} {f : α → List Nat}
    {l : List α} (hlen : l.length < 2 ^ 64)
    (h : ∀ x ∈ l, ParsesTo p (f x) x) :
    ParsesTo (readSeq p) (encSeq f l) l :=
  parsesTo_dbind (readCount p) (parsesTo_readU8 hlen) (parsesTo_readCount l h)

/-- `RuleMetadata` round-trip. -/
theorem parsesTo_readMetadata {m : RuleMetadata ByteStr}
    (h : ValidMetadata m) : ParsesTo readMetadata (encMetadata m) m := by
  obtain ⟨h1, h2, h3, h4, h5, h6, h7, h8, h9, h10⟩ := h
  have hau : ∀ x, m.author = some x → ParsesTo readStr (encStr x) x := by
    intro x hx
    rw [hx] at h7
    exact parsesTo_readStr h7.1
  have hde : ∀ x, m.description = some x → ParsesTo readStr (encStr x) x := by
    intro x hx
    rw [hx] at h8
    exact parsesTo_readStr h8.1
  unfold readMetadata encMetadata
  refine parsesTo_dbind _ (parsesTo_readStr h1.1) ?_
  refine parsesTo_dbind _ (parsesTo_readStr h2.1) ?_
  refine parsesTo_dbind _ (parsesTo_readStr h3.1) ?_
  refine parsesTo_dbind _
    (parsesTo_readSeq h4 (fun s hs => parsesTo_readStr (h5 s hs).1)) ?_
  refine parsesTo_dbind _ (parsesTo_readStr h6.1) ?_
  refine parsesTo_dbind _ (parsesTo_readOpt hau) ?_
  refine parsesTo_dbind _ (parsesTo_readOpt hde) ?_
  refine parsesTo_dbind _ (parsesTo_readStr h9.1) ?_
  exact parsesTo_dbind_done _ (parsesTo_readStr h10.1) (parsesTo_dpure m)

/-- `RegistryEntry` round-trip. -/
theorem parsesTo_readEntry {e : RegistryEntry ByteStr}
    (h : ValidEntry e) : ParsesTo readEntry (encEntry e) e := by
  obtain ⟨h1, h2, h3, h4, h5⟩ := h
  have hva : ∀ x, e.value = some x → ParsesTo readStr (encStr x) x := by
    intro x hx
    rw [hx] at h3
    exact parsesTo_readStr h3.1
  have hvd : ∀ x, e.value_data = some x → ParsesTo readStr (encStr x) x := by
    intro x hx
    rw [hx] at h4
    exact parsesTo_readStr h4.1
  unfold readEntry encEntry
  refine parsesTo_dbind _ (parsesTo_readStr h1.1) ?_
  refine parsesTo_dbind _ (parsesTo_readStr h2.1) ?_
  refine parsesTo_dbind _ (parsesTo_readOpt hva) ?_
  refine parsesTo_dbind _ (parsesTo_readOpt hvd) ?_
  exact parsesTo_dbind_done _ (parsesTo_readStr h5.1) (parsesTo_dpure e)

/-- `SerializedRule` round-trip. -/
theorem parsesTo_readRule {r : SerializedRule ByteStr}
    (h : ValidRule r) : ParsesTo readRule (encRule r) r := by
  obtain ⟨h1, h2, h3, h4, h5, h6⟩ := h
  unfold readRule encRule
  refine parsesTo_dbind _ (parsesTo_readMetadata h1) ?_
  refine parsesTo_dbind _ (parsesTo_readStr h2.1) ?_
  refine parsesTo_dbind _
    (parsesTo_readSeq h3 (fun s hs => parsesTo_readStr (h4 s hs).1)) ?_
  exact parsesTo_dbind_done _
    (parsesTo_readSeq h5 (fun e he => parsesTo_readEntry (h6 e he)))
    (parsesTo_dpure r)

/-- `RulesPackageHeader` round-trip. -/
theorem parsesTo_readHeader {h : RulesPackageHeader ByteStr}
    (hv : ValidHeader h) : ParsesTo readHeader (encHeader h) h := by
  obtain ⟨h1, h2, h3, h4, h5, h6⟩ := hv
  unfold readHeader encHeader
  refine parsesTo_dbind _ (parsesTo_readU4 h1) ?_
  refine parsesTo_dbind _ (parsesTo_readU8 h2) ?_
  refine parsesTo_dbind _ (parsesTo_readU8 h3) ?_
  refine parsesTo_dbind _ (parsesTo_readStr h4.1) ?_
  exact parsesTo_dbind_done _
    (parsesTo_readSeq h5 (fun s hs => parsesTo_readStr (h6 s hs).1))
    (parsesTo_dpure h)

/-- `RulesPackage` round-trip with tail preservation. -/
theorem parsesTo_readPackage {p : RulesPackage ByteStr}
    (h : ValidPackage p) : ParsesTo readPackage (encPackage p) p := by
  obtain ⟨h1, h2, h3⟩ := h
  unfold readPackage encPackage
  refine parsesTo_dbind _ (parsesTo_readHeader h1) ?_
  exact parsesTo_dbind_done _
    (parsesTo_readSeq h2 (fun r hr => parsesTo_readRule (h3 r hr)))
    (parsesTo_dpure p)

/-- C1: codec round-trip.  For every structurally valid `RulesPackage`,
decoding the bytes produced by encoding it yields the package back,
field for field — defaulted strings, optional-field presence and the order
of every sequence (rules, categories, systeminfo, paths, registry_entries)
included, since the equality is on the whole structure. -/
theorem decodePackage_encPackage (p : RulesPackage ByteStr)
    (h : ValidPackage p) : decodePackage (encPackage p) = some p := by
  have hp := parsesTo_readPackage h []
  rw [List.append_nil] at hp
  simp [decodePackage, hp]

/-- C1 witness: the round-trip at a concrete one-rule package exercising
both optional-field states and every sequence field. -/
theorem decodePackage_encPackage_witness :
    decodePackage (encPackage pkg1) = some pkg1 :=
  decodePackage_encPackage pkg1 (by decide)

/-- A decoder only looks at the bytes it consumes: appending bytes to the
input of a successful parse leaves the parsed value unchanged and appends
the same bytes to the tail. -/
def TailStable {α : Type} (p : Decoder α) : Prop :=
  ∀ xs ys a rest, p xs = some (a, rest) → p (xs ++ ys) = some (a, rest ++ ys)

/-- `dpure` is tail-stable. -/
theorem tailStable_dpure {α : Type} (a : α) : TailStable (dpure a) := by
  intro xs ys a2 rest h
  simp [dpure] at h ⊢
  exact ⟨h.1, by rw [h.2]⟩

/-- `dbind` preserves tail-stability. -/
theorem tailStable_dbind {α β : Type} {p : Decoder α} (f : α → Decoder β)
    (hp : TailStable p) (hf : ∀ a, TailStable (f a)) :
    TailStable (dbind p f) := by
  intro xs ys a rest h
  unfold dbind at h ⊢
  cases hpx : p xs with
  | none =>
    rw [hpx] at h
    exact absurd h (by simp)
  | some v =>
    obtain ⟨b, mid⟩ := v
    rw [hpx] at h
    rw [hp xs ys b mid hpx]
    exact hf b mid ys a rest h

/-- `readU` is tail-stable. -/
theorem tailStable_readU (w : Nat) : TailStable (readU w) := by
  induction w with
  | zero => exact tailStable_dpure 0
  | succ w ih =>
    intro xs ys a rest h
    cases xs with
    | nil => simp [readU] at h
    | cons b t =>
      simp only [readU] at h
      cases hr : readU w t with
      | none =>
        rw [hr] at h
        simp at h
      | some v =>
        obtain ⟨n, rest0⟩ := v
        rw [hr] at h
        simp only [Option.some.injEq, Prod.mk.injEq] at h
        obtain ⟨ha, hrest⟩ := h
        rw [List.cons_append]
        simp only [readU]
        rw [ih t ys n rest0 hr]
        show some (b + 256 * n, rest0 ++ ys) = some (a, rest ++ ys)
        rw [ha, hrest]

/-- `readBytesN` is tail-stable. -/
theorem tailStable_readBytesN (n : Nat) : TailStable (readBytesN n) := by
  intro xs ys a rest h
  simp only [readBytesN] at h ⊢
  by_cases hn : n ≤ xs.length
  · rw [if_pos hn] at h
    simp only [Option.some.injEq, Prod.mk.injEq] at h
    obtain ⟨ha, hrest⟩ := h
    have hn2 : n ≤ (xs ++ ys).length := by
      simp only [List.length_append]
      omega
    rw [if_pos hn2]
    rw [List.take_append_of_le_length hn, List.drop_append_of_le_length hn]
    rw [ha, hrest]
  · rw [if_neg hn] at h
    exact absurd h (by simp)

/-- `readStr` is tail-stable. -/
theorem tailStable_readStr : TailStable readStr :=
  tailStable_dbind readBytesN (tailStable_readU 8)
    (fun n => tailStable_readBytesN n)

/-- `readOpt` preserves tail-stability. -/
theorem tailStable_readOpt {α : Type} {p : Decoder α} (hp : TailStable p) :
    TailStable (readOpt p) := by
  intro xs ys a rest h
  cases xs with
  | nil => simp [readOpt] at h
  | cons b t =>
    by_cases hb0 : b = 0
    · subst hb0
      have h2 : some ((none : Option α), t) = some (a, rest) := h
      simp only [Option.some.injEq, Prod.mk.injEq] at h2
      show some ((none : Option α), t ++ ys) = some (a, rest ++ ys)
      rw [← h2.1, ← h2.2]
    · by_cases hb1 : b = 1
      · subst hb1
        have h2 : (match p t with
            | none => none
            | some (x, r2) => some (some x, r2)) = some (a, rest) := h
        cases hr : p t with
        | none =>
          rw [hr] at h2
          simp at h2
        | some v =>
          obtain ⟨x, rest0⟩ := v
          rw [hr] at h2
          have h3 : some (some x, rest0) = some (a, rest) := h2
          simp only [Option.some.injEq, Prod.mk.injEq] at h3
          show (match p (t ++ ys) with
            | none => none
            | some (x, r2) => some (some x, r2)) = some (a, rest ++ ys)
          rw [hp t ys x rest0 hr]
          show some (some x, rest0 ++ ys) = some (a, rest ++ ys)
          rw [h3.1, h3.2]
      · have h2 : (if b = 0 then some ((none : Option α), t)
            else if b = 1 then
              (match p t with
                | none => none
                | some (x, r2) => some (some x, r2))
            else none) = some (a, rest) := h
        rw [if_neg hb0, if_neg hb1] at h2
        exact absurd h2 (by simp)

/-- `readCount` preserves tail-stability. -/
theorem tailStable_readCount {α : Type} {p : Decoder α} (hp : TailStable p)
    (n : Nat) : TailStable (readCount p n) := by
  induction n with
  | zero => exact tailStable_dpure []
  | succ n ih =>
    exact tailStable_dbind _ hp
      (fun a => tailStable_dbind _ ih (fun l => tailStable_dpure (a :: l)))

/-- `readSeq` preserves tail-stability. -/
theorem tailStable_readSeq {α : Type} {p : Decoder α} (hp : TailStable p) :
    TailStable (readSeq p) :=
  tailStable_dbind (readCount p) (tailStable_readU 8)
    (fun n => tailStable_readCount hp n)

/-- `readMetadata` is tail-stable. -/
theorem tailStable_readMetadata : TailStable readMetadata :=
  tailStable_dbind _ tailStable_readStr fun _ =>
  tailStable_dbind _ tailStable_readStr fun _ =>
  tailStable_dbind _ tailStable_readStr fun _ =>
  tailStable_dbind _ (tailStable_readSeq tailStable_readStr) fun _ =>
  tailStable_dbind _ tailStable_readStr fun _ =>
  tailStable_dbind _ (tailStable_readOpt tailStable_readStr) fun _ =>
  tailStable_dbind _ (tailStable_readOpt tailStable_readStr) fun _ =>
  tailStable_dbind _ tailStable_readStr fun _ =>
  tailStable_dbind _ tailStable_readStr fun _ =>
  tailStable_dpure _

/-- `readEntry` is tail-stable. -/
theorem tailStable_readEntry : TailStable readEntry :=
  tailStable_dbind _ tailStable_readStr fun _ =>
  tailStable_dbind _ tailStable_readStr fun _ =>
  tailStable_dbind _ (tailStable_readOpt tailStable_readStr) fun _ =>
  tailStable_dbind _ (tailStable_readOpt tailStable_readStr) fun _ =>
  tailStable_dbind _ tailStable_readStr fun _ =>
  tailStable_dpure _

/-- `readRule` is tail-stable. -/
theorem tailStable_readRule : TailStable readRule :=
  tailStable_dbind _ tailStable_readMetadata fun _ =>
  tailStable_dbind _ tailStable_readStr fun _ =>
  tailStable_dbind _ (tailStable_readSeq tailStable_readStr) fun _ =>
  tailStable_dbind _ (tailStable_readSeq tailStable_readEntry) fun _ =>
  tailStable_dpure _

/-- `readHeader` is tail-stable. -/
theorem tailStable_readHeader : TailStable readHeader :=
  tailStable_dbind _ (tailStable_readU 4) fun _ =>
  tailStable_dbind _ (tailStable_readU 8) fun _ =>
  tailStable_dbind _ (tailStable_readU 8) fun _ =>
  tailStable_dbind _ tailStable_readStr fun _ =>
  tailStable_dbind _ (tailStable_readSeq tailStable_readStr) fun _ =>
  tailStable_dpure _

/-- `readPackage` is tail-stable. -/
theorem tailStable_readPackage : TailStable readPackage :=
  tailStable_dbind _ tailStable_readHeader fun _ =>
  tailStable_dbind _ (tailStable_readSeq tailStable_readRule) fun _ =>
  tailStable_dpure _

/-- C3: decoding failure on malformed input.  The decoder is a total
function (it can only return a package or the `none` modelling a
CodecError — there is no panic and, reading from a list, no out-of-bounds
access), and every strict truncation of a valid encoding makes it fail:
for a structurally valid package, chopping the encoded bytes anywhere
short of the end yields `none`. -/
theorem decodePackage_truncation (p : RulesPackage ByteStr)
    (h : ValidPackage p) (m : Nat) (hm : m < (encPackage p).length) :
    decodePackage ((encPackage p).take m) = none := by
  have hfull : readPackage (encPackage p) = some (p, []) := by
    have hp := parsesTo_readPackage h []
    rwa [List.append_nil] at hp
  cases htr : readPackage ((encPackage p).take m) with
  | none => simp [decodePackage, htr]
  | some v =>
    obtain ⟨a, rest⟩ := v
    exfalso
    have hext := tailStable_readPackage ((encPackage p).take m)
      ((encPackage p).drop m) a rest htr
    rw [List.take_append_drop] at hext
    rw [hfull] at hext
    simp only [Option.some.injEq, Prod.mk.injEq] at hext
    have hdrop : (encPackage p).drop m = [] :=
      (List.append_eq_nil.mp hext.2.symm).2
    have hlen := congrArg List.length hdrop
    simp only [List.length_drop, List.length_nil] at hlen
    omega

set_option maxRecDepth 10000 in
/-- C3 witness: a concrete truncation of the concrete valid package fails
to decode. -/
theorem decodePackage_truncation_witness :
    decodePackage ((encPackage pkg1).take 10) = none :=
  decodePackage_truncation pkg1 (by decide) 10 (by decide)
